import Mathlib

/-!
Verification of the ender-deploy-be control plane against its specification.

The definitions below are shallow embeddings of the Go source:

* path handling (filepath.Clean / filepath.Join on slash-separated paths)
  used by the file-tree operations of internal/services/server_service.go
  and by the backup restore of internal/services/backup_service.go;
* the port allocator FindAvailablePort of server_service.go;
* the backup Create procedure of backup_service.go as an event trace;
* the per-instance stat update of internal/monitoring/stat_updater.go
  (both revisions present in the repository);
* PerformServerAction of server_service.go;
* the scheduler tick of internal/monitoring/scheduler.go;
* the websocket hub of internal/websocket/hub.go as a step relation.

Paths are modelled as lists of characters so that the string-prefix
checks of the Go code (strings.HasPrefix) are represented exactly.
-/

namespace EnderDeploy

/-- Splits a character list on a separator character, mirroring Go's
strings.Split semantics: splitting the empty string yields one empty field. -/
def splitOnChar (sep : Char) : List Char → List (List Char)
  | [] => [[]]
  | c :: rest =>
    let r := splitOnChar sep rest
    if c = sep then [] :: r
    else
      match r with
      | h :: t => (c :: h) :: t
      | [] => [[c]]

/-- Core of Go's filepath.Clean: processes path components onto an output
stack (held in reverse).  Empty and "." components are dropped;
".." pops a non-".." component, is dropped at the root of an absolute path,
and is kept when it cannot be resolved in a relative path. -/
def cleanAux (rooted : Bool) : List (List Char) → List (List Char) → List (List Char)
  | [], out => out
  | c :: rest, out =>
    if c = [] ∨ c = ['.'] then cleanAux rooted rest out
    else if c = ['.', '.'] then
      match out with
      | [] => if rooted then cleanAux rooted rest [] else cleanAux rooted rest [['.', '.']]
      | top :: out' =>
        if top = ['.', '.'] then cleanAux rooted rest (c :: top :: out')
        else cleanAux rooted rest out'
    else cleanAux rooted rest (c :: out)

/-- Joins path components with a separator character. -/
def joinComponents (sep : Char) : List (List Char) → List Char
  | [] => []
  | [x] => x
  | x :: rest => x ++ sep :: joinComponents sep rest

/-- Go's filepath.Clean for slash-separated paths, on character lists. -/
def goClean (p : List Char) : List Char :=
  if p = [] then ['.']
  else
    let rooted := p.head? = some '/'
    let comps := (cleanAux rooted (splitOnChar '/' p) []).reverse
    if rooted then '/' :: joinComponents '/' comps
    else if comps = [] then ['.'] else joinComponents '/' comps

/-- Go's filepath.Join for two elements: empty elements are dropped and the
concatenation is cleaned; joining two empty strings yields the empty string. -/
def goJoin (a b : List Char) : List Char :=
  if a = [] ∧ b = [] then []
  else if a = [] then goClean b
  else if b = [] then goClean a
  else goClean (a ++ '/' :: b)

/-!  File-tree operations (server_service.go).

Each operation resolves fullPath := filepath.Join(server.DataPath, path)
and rejects with "invalid path: access denied" unless
strings.HasPrefix(fullPath, server.DataPath) holds; otherwise it accesses
fullPath.  The embedding returns the accessed path or the error. -/

/-- ListFiles path resolution and guard (server_service.go, ListFiles). -/
def listFilesPath (dataPath userPath : List Char) : Except String (List Char) :=
  let fullPath := goJoin dataPath userPath
  if dataPath.isPrefixOf fullPath then .ok fullPath
  else .error "invalid path: access denied"

/-- GetFileContent path resolution and guard (server_service.go, GetFileContent). -/
def getFileContentPath (dataPath userPath : List Char) : Except String (List Char) :=
  let fullPath := goJoin dataPath userPath
  if dataPath.isPrefixOf fullPath then .ok fullPath
  else .error "invalid path: access denied"

/-- UpdateFileContent path resolution and guard (server_service.go, UpdateFileContent). -/
def updateFileContentPath (dataPath userPath : List Char) : Except String (List Char) :=
  let fullPath := goJoin dataPath userPath
  if dataPath.isPrefixOf fullPath then .ok fullPath
  else .error "invalid path: access denied"

/-- A resolved path lies inside the working tree when it is the (cleaned)
working tree itself or extends it past a path separator. -/
def insideWorkingTree (dataPath p : List Char) : Bool :=
  p = goClean dataPath || (goClean dataPath ++ ['/']).isPrefixOf p

/-!  Port allocator (server_service.go, FindAvailablePort).

The Go loop runs port from startPort while port < 65535, binding and
immediately unbinding each port, and returns the first port for which the
bind succeeds; availability is abstracted by a predicate. -/

/-- Fuel-driven scan loop of FindAvailablePort. -/
def findAvailablePortAux (free : Nat → Bool) : Nat → Nat → Option Nat
  | 0, _ => none
  | fuel + 1, port =>
    if port < 65535 then
      if free port then some port else findAvailablePortAux free fuel (port + 1)
    else none

/-- FindAvailablePort: scan upward from startPort, up to port 65534,
returning the first free port, or an error (modelled as none). -/
def findAvailablePort (free : Nat → Bool) (startPort : Nat) : Option Nat :=
  findAvailablePortAux free (65535 - startPort) startPort

/-!  Backup restore (backup_service.go, RestoreBackup).

For every archive entry the destination is
fpath := filepath.Join(server.DataPath, f.Name); the entry is rejected with
"invalid file path in zip" unless fpath has
filepath.Clean(server.DataPath) + "/" as a string prefix; directory entries
are created with MkdirAll and file entries are written at fpath.
The embedding records the destination paths created before any failure. -/

/-- One archive entry: its stored name and whether it is a directory entry. -/
structure ZipEntry where
  name : List Char
  isDir : Bool
deriving DecidableEq

/-- ZipSlip guard of RestoreBackup: the destination must extend the cleaned
working tree past a path separator. -/
def restoreGuard (dataPath fpath : List Char) : Bool :=
  (goClean dataPath ++ ['/']).isPrefixOf fpath

/-- Extraction loop of RestoreBackup: returns the destination paths created,
in order, and the error that aborted the loop, if any. -/
def restoreExtract (dataPath : List Char) : List ZipEntry → List (List Char) × Option String
  | [] => ([], none)
  | e :: rest =>
    let fpath := goJoin dataPath e.name
    if restoreGuard dataPath fpath then
      let r := restoreExtract dataPath rest
      (fpath :: r.1, r.2)
    else ([], some "invalid file path in zip")

/-!  Backup creation (backup_service.go, CreateBackup).

The procedure is modelled as the ordered trace of its observable actions:
RCON commands sent through the command broker, the 5-second flush wait,
archive creation, the working-tree walk, the size stat and the catalogue
insert.  Each Boolean argument is the outcome of the corresponding fallible
step; the save-off outcome does not affect control flow beyond a warning. -/

/-- Observable actions of the CreateBackup procedure. -/
inductive BkEvent where
  | cmd (c : String)
  | sleepSec (n : Nat)
  | createArchive
  | walkTree
  | statFile
  | insertRow
  | emitEvent
deriving DecidableEq

/-- Appends the deferred save-on command on function exit when the quiesce
block registered it (instance online). -/
def withRelease (online : Bool) (es : List BkEvent) : List BkEvent :=
  if online then es ++ [BkEvent.cmd "save-on"] else es

/-- CreateBackup as an event trace together with its success flag.
Mirrors backup_service.go lines 47-147: quiesce when online (save-off sent
first and only logged on failure, save-on deferred, save-all fatal on
failure, 5 s sleep), archive create, tree walk, stat, insert, event. -/
def createBackupEvents (online saveOffOk saveAllOk createOk walkOk statOk insertOk : Bool) :
    List BkEvent × Bool :=
  let quiesce := if online then [BkEvent.cmd "save-off", BkEvent.cmd "save-all"] else []
  let _ := saveOffOk
  if online && !saveAllOk then (withRelease online quiesce, false)
  else
    let es1 := quiesce ++ (if online then [BkEvent.sleepSec 5] else []) ++ [BkEvent.createArchive]
    if !createOk then (withRelease online es1, false)
    else
      let es2 := es1 ++ [BkEvent.walkTree]
      if !walkOk then (withRelease online es2, false)
      else
        let es3 := es2 ++ [BkEvent.statFile]
        if !statOk then (withRelease online es3, false)
        else
          let es4 := es3 ++ [BkEvent.insertRow]
          if !insertOk then (withRelease online es4, false)
          else (withRelease online (es4 ++ [BkEvent.emitEvent]), true)

/-!  Per-instance stat update (internal/monitoring/stat_updater.go).

The repository carries two revisions of updateSingleServer: the one at
internal/monitoring/stat_updater.go (modelled as updateSingleServerOld) and
the revised one whose path header also names
internal/monitoring/stat_updater.go (src/unnamed/part_011, modelled as
updateSingleServerRev).  Resource percentages are abstracted as integers;
the numeric derivation from container stats is not modelled.  The result is
the server value passed to UpdateServerStats, or none when the update
returns without writing. -/

/-- Catalogue fields of an instance that the stat updater reads and writes. -/
structure Server where
  sid : String
  status : String
  containerId : String
  cpu : Int
  ram : Int
  storage : Int
  players : Int
deriving DecidableEq

/-- Outcome of the one-shot container stats request. -/
inductive StatsResult where
  | notFound
  | transientError
  | ok (cpu ram storage : Int)
deriving DecidableEq

/-- Revision at internal/monitoring/stat_updater.go, lines 83-108: on a
not-found error a non-offline instance is zeroed and marked offline, any
other error falls through unchanged, and on success the status is set to
online unconditionally; UpdateServerStats is called in every case. -/
def updateSingleServerOld (server : Server) (res : StatsResult) : Option Server :=
  let written :=
    match res with
    | .notFound =>
      if server.status ≠ "offline" then
        { server with status := "offline", cpu := 0, ram := 0, storage := 0, players := 0 }
      else server
    | .transientError => server
    | .ok c r st => { server with status := "online", cpu := c, ram := r, storage := st }
  some written

/-- Revised updateSingleServer (src/unnamed/part_011, lines 83-133): skip on
empty container id; on not-found write offline only if not already offline;
on any other error return without writing; on success correct the status to
online only from offline, otherwise leave the declared status alone. -/
def updateSingleServerRev (server : Server) (res : StatsResult) : Option Server :=
  if server.containerId = "" then none
  else
    match res with
    | .notFound =>
      if server.status ≠ "offline" then
        some { server with status := "offline", cpu := 0, ram := 0, storage := 0, players := 0 }
      else none
    | .transientError => none
    | .ok c r st =>
      let s1 := if server.status = "offline" then { server with status := "online" } else server
      some { s1 with cpu := c, ram := r, storage := st }

/-- One ResourceSample history row, as inserted by UpdateServerStats. -/
structure Sample where
  sid : String
  cpu : Int
  ram : Int
  players : Int
deriving DecidableEq

/-- UpdateServerStats (server_service.go, lines 683-715): transactionally
updates the instance row and appends a ResourceSample history row. -/
def updateServerStats (history : List Sample) (s : Server) : List Sample :=
  history ++ [⟨s.sid, s.cpu, s.ram, s.players⟩]

/-- History after one per-instance tick of the old revision. -/
def tickHistoryOld (history : List Sample) (server : Server) (res : StatsResult) : List Sample :=
  match updateSingleServerOld server res with
  | none => history
  | some w => updateServerStats history w

/-- History after one per-instance tick of the revised updater. -/
def tickHistoryRev (history : List Sample) (server : Server) (res : StatsResult) : List Sample :=
  match updateSingleServerRev server res with
  | none => history
  | some w => updateServerStats history w

/-!  Lifecycle actions (server_service.go, PerformServerAction, lines
609-680).  The docker calls are abstracted by their success flags; the
result is the status string written to the catalogue row, or the error
returned before any status write. -/

/-- PerformServerAction: returns the new declared status recorded in the
catalogue on success.  The stop action writes its new status immediately
after the container stop call returns. -/
def performServerAction (stopOk startOk restartOk : Bool) (action : String) :
    Except String String :=
  if action = "start" then
    if startOk then .ok "starting" else .error "docker start failed"
  else if action = "stop" then
    if stopOk then .ok "offline" else .error "docker stop failed"
  else if action = "restart" then
    if restartOk then .ok "starting" else .error "docker restart failed"
  else if action = "reinstall" then
    if !stopOk then .error "failed to stop server for reinstall"
    else if startOk then .ok "starting" else .error "failed to start server after reinstall"
  else .error "unknown action"

/-!  Scheduler tick (internal/monitoring/scheduler.go, checkAndRunSchedules,
lines 61-86).  Times are integers; cron.ParseStandard is abstracted by the
cronValid flag and cronSchedule.Next by the cronNext argument, keyed by
schedule id. -/

/-- Columns of a schedule row that the tick reads. -/
structure Schedule where
  id : Nat
  cronValid : Bool
  nextRunAt : Option Int
deriving DecidableEq

/-- Guard of the tick loop: the cron expression parses, next_run_at is set,
and now.After(next_run_at) holds, i.e. next_run_at is strictly earlier. -/
def dueSchedule (now : Int) (s : Schedule) : Bool :=
  s.cronValid &&
    match s.nextRunAt with
    | some t => decide (t < now)
    | none => false

/-- One scheduler tick over the active schedules: returns the ids dispatched
(each due schedule spawns exactly one task) and the persisted run times
(id, last_run_at, next_run_at) written by UpdateScheduleRunTimes. -/
def checkAndRunSchedules (cronNext : Nat → Int → Int) (now : Int) :
    List Schedule → List Nat × List (Nat × Int × Int)
  | [] => ([], [])
  | s :: rest =>
    let r := checkAndRunSchedules cronNext now rest
    if dueSchedule now s then (s.id :: r.1, (s.id, now, cronNext s.id now) :: r.2)
    else r

/-!  Websocket hub (internal/websocket/hub.go).

Sessions are identified by natural numbers (standing for the distinct
client pointers).  The hub state holds the client set, the subscription
table as a list of (topic, session) pairs, and for each session the number
of times its outbox channel has been closed.  Steps mirror the Run loop
cases and BroadcastTo; fullness of an outbox during a fan-out is an
arbitrary predicate F.  A Register step requires a fresh session, as every
registration in the handlers passes a newly allocated client. -/

/-- State of the hub: registered clients, topic subscriptions and, for the
verification, how many times each session's outbox has been closed. -/
structure HubState where
  clients : List Nat
  subs : List (String × Nat)
  closed : Nat → Nat

/-- Hub state before any event is processed. -/
def initHub : HubState := ⟨[], [], fun _ => 0⟩

/-- Increments the close count of one session. -/
def bumpClosed (f : Nat → Nat) (c : Nat) : Nat → Nat :=
  fun x => if x = c then f x + 1 else f x

/-- One processing step of the hub: a Register event, an Unregister event
(hit or miss on the client set), a global Broadcast with fullness predicate
F, or a BroadcastTo on a topic with fullness predicate F. -/
inductive HubStep : HubState → HubState → Prop where
  | register (s : HubState) (c : Nat) (sid : String) :
      c ∉ s.clients → s.closed c = 0 → (∀ t, (t, c) ∉ s.subs) →
      HubStep s ⟨c :: s.clients,
                 if sid = "" then s.subs else (sid, c) :: s.subs,
                 s.closed⟩
  | unregisterHit (s : HubState) (c : Nat) : c ∈ s.clients →
      HubStep s ⟨s.clients.erase c,
                 s.subs.filter (fun p => !(p.2 = c : Bool)),
                 bumpClosed s.closed c⟩
  | unregisterMiss (s : HubState) (c : Nat) : c ∉ s.clients → HubStep s s
  | broadcast (s : HubState) (F : Nat → Bool) :
      HubStep s ⟨s.clients.filter (fun c => !F c),
                 s.subs.filter (fun p => !(decide (p.2 ∈ s.clients) && F p.2)),
                 fun c => if c ∈ s.clients ∧ F c then s.closed c + 1 else s.closed c⟩
  | broadcastTo (s : HubState) (topic : String) (F : Nat → Bool) :
      HubStep s ⟨s.clients.filter (fun c => !(decide ((topic, c) ∈ s.subs) && F c)),
                 s.subs.filter (fun p => !((p.1 = topic : Bool) && F p.2)),
                 fun c => if (topic, c) ∈ s.subs ∧ F c then s.closed c + 1 else s.closed c⟩

/-- Reachability of a hub state from the initial state. -/
def HubReachable (s : HubState) : Prop :=
  Relation.ReflTransGen HubStep initHub s

/-- Inductive invariant of the hub: no duplicate clients, subscriptions
refer only to registered clients with at most one topic per client, a
registered client's outbox has never been closed, and no outbox is closed
more than once. -/
def HubInv (s : HubState) : Prop :=
  s.clients.Nodup ∧
  (∀ t c, (t, c) ∈ s.subs → c ∈ s.clients) ∧
  (∀ t₁ t₂ c, (t₁, c) ∈ s.subs → (t₂, c) ∈ s.subs → t₁ = t₂) ∧
  (∀ c, c ∈ s.clients → s.closed c = 0) ∧
  (∀ c, s.closed c ≤ 1)

/-!  Theorems. -/

lemma fileOp_ok_isPrefixOf {d u r : List Char}
    (h : (if d.isPrefixOf (goJoin d u) then Except.ok (goJoin d u)
          else Except.error "invalid path: access denied") = Except.ok r) :
    d.isPrefixOf r = true := by
  by_cases hb : d.isPrefixOf (goJoin d u)
  · simp only [hb, if_true, Except.ok.injEq] at h
    rw [← h]
    exact hb
  · simp [hb] at h

/-- C2 (counterexample): with working tree /data/srv1, the user path
../srv1evil resolves to the sibling directory /data/srv1evil, which passes
the access guard of all three file operations although it lies outside the
working tree. -/
theorem listFiles_sibling_escape :
    listFilesPath "/data/srv1".toList "../srv1evil".toList = .ok "/data/srv1evil".toList ∧
    getFileContentPath "/data/srv1".toList "../srv1evil".toList = .ok "/data/srv1evil".toList ∧
    updateFileContentPath "/data/srv1".toList "../srv1evil".toList = .ok "/data/srv1evil".toList ∧
    insideWorkingTree "/data/srv1".toList "/data/srv1evil".toList = false :=
  ⟨rfl, rfl, rfl, by decide⟩

/-- C2 (amended): every file-tree operation accepts exactly when the
resolved candidate has the working tree as a plain string prefix, so an
accepted path always extends the working-tree string, but not necessarily
past a path separator. -/
theorem fileOps_accept_string_extension :
    ∀ d u r : List Char,
    (listFilesPath d u = .ok r → d.isPrefixOf r = true) ∧
    (getFileContentPath d u = .ok r → d.isPrefixOf r = true) ∧
    (updateFileContentPath d u = .ok r → d.isPrefixOf r = true) := by
  intro d u r
  refine ⟨?_, ?_, ?_⟩ <;> intro h <;> exact fileOp_ok_isPrefixOf h

theorem fileOps_accept_string_extension_witness :
    ("/data/srv1".toList).isPrefixOf ("/data/srv1/ok.txt".toList) = true :=
  (fileOps_accept_string_extension "/data/srv1".toList "ok.txt".toList
    "/data/srv1/ok.txt".toList).1 rfl

/-- C7: every destination created by the restore extraction loop extends the
cleaned working tree past a path separator, and an archive containing any
entry whose destination escapes makes the restore return an error. -/
theorem restore_zipslip_guard :
    ∀ (dataPath : List Char) (entries : List ZipEntry),
    (∀ p ∈ (restoreExtract dataPath entries).1, insideWorkingTree dataPath p = true) ∧
    ((∃ e ∈ entries, restoreGuard dataPath (goJoin dataPath e.name) = false) →
      (restoreExtract dataPath entries).2.isSome = true) := by
  intro dataPath entries
  induction entries with
  | nil =>
    constructor
    · intro p hp; simp [restoreExtract] at hp
    · rintro ⟨e, he, _⟩; simp at he
  | cons e rest ih =>
    by_cases hg : restoreGuard dataPath (goJoin dataPath e.name) = true
    · constructor
      · intro p hp
        simp only [restoreExtract, hg, if_true, List.mem_cons] at hp
        rcases hp with hp | hp
        · subst hp
          unfold insideWorkingTree
          unfold restoreGuard at hg
          simp [hg]
        · exact ih.1 p hp
      · rintro ⟨e', he', hbad⟩
        rcases List.mem_cons.mp he' with rfl | he'
        · rw [hg] at hbad; cases hbad
        · simp only [restoreExtract, hg, if_true]
          exact ih.2 ⟨e', he', hbad⟩
    · constructor
      · intro p hp
        simp only [restoreExtract, Bool.not_eq_true] at hp
        rw [Bool.not_eq_true] at hg
        simp [hg] at hp
      · intro _
        rw [Bool.not_eq_true] at hg
        simp [restoreExtract, hg]

theorem restore_zipslip_guard_witness :
    (restoreExtract "/data/srv1".toList
      [⟨"ok.txt".toList, false⟩, ⟨"../evil".toList, false⟩]).2.isSome = true :=
  (restore_zipslip_guard "/data/srv1".toList
    [⟨"ok.txt".toList, false⟩, ⟨"../evil".toList, false⟩]).2
    ⟨⟨"../evil".toList, false⟩, by decide, by decide⟩

lemma findAvailablePortAux_allFalse :
    ∀ (fuel port : Nat), findAvailablePortAux (fun _ => false) fuel port = none := by
  intro fuel
  induction fuel with
  | zero => intro port; rfl
  | succ n ih =>
    intro port
    unfold findAvailablePortAux
    by_cases h : port < 65535 <;> simp [h, ih]

/-- C8 (counterexample): the allocator releases its trial bind before
returning, so a second strictly sequential call with the port environment
unchanged returns the base port again, not the successor: from base 25565
with every port free, both calls return 25565, never 25566. -/
theorem port_allocator_repeats_base :
    findAvailablePort (fun _ => true) 25565 = some 25565 ∧
    ¬ (findAvailablePort (fun _ => true) 25565 = some 25565 ∧
       findAvailablePort (fun _ => true) 25565 = some 25566) := by
  decide

/-- C8 (amended): the allocator scans upward from the base up to port 65534
and returns the first free port, so a call from base B with B free returns
B; a second call after the caller has occupied B returns B+1 when B+1 is
free; and when no port is free it fails with the no-free-port error. -/
theorem port_allocator_sequential :
    ∀ (free : Nat → Bool) (B : Nat),
    B < 65535 → free B = true →
    findAvailablePort free B = some B ∧
    (B + 1 < 65535 → free (B + 1) = true →
      findAvailablePort (fun p => if p = B then false else free p) B = some (B + 1)) ∧
    findAvailablePort (fun _ => false) B = none := by
  intro free B hB hfree
  refine ⟨?_, ?_, findAvailablePortAux_allFalse _ _⟩
  · unfold findAvailablePort
    obtain ⟨k, hk⟩ : ∃ k, 65535 - B = k + 1 := ⟨65535 - B - 1, by omega⟩
    rw [hk]
    unfold findAvailablePortAux
    simp [hB, hfree]
  · intro hB1 hfree1
    unfold findAvailablePort
    obtain ⟨k, hk⟩ : ∃ k, 65535 - B = k + 2 := ⟨65535 - B - 2, by omega⟩
    rw [hk]
    unfold findAvailablePortAux
    simp only [hB, if_true]
    rw [if_neg Bool.false_ne_true]
    unfold findAvailablePortAux
    have hne : B + 1 ≠ B := by omega
    simp [hB1, hne, hfree1]

theorem port_allocator_sequential_witness :
    findAvailablePort (fun _ => true) 25565 = some 25565 ∧
    findAvailablePort (fun p => if p = 25565 then false else true) 25565 = some 25566 :=
  ⟨(port_allocator_sequential (fun _ => true) 25565 (by decide) rfl).1,
   (port_allocator_sequential (fun _ => true) 25565 (by decide) rfl).2.1 (by decide) rfl⟩


/-- C1: at the failing input (declared status starting, one-shot stats
request succeeds) the stat-updater revision at
internal/monitoring/stat_updater.go writes status online, bypassing the
readiness prober, while the revised updater of src/unnamed/part_011 keeps
the declared status starting and corrects to online only from offline. -/
theorem statupdater_starting_bypass :
    (updateSingleServerOld ⟨"s1", "starting", "c1", 0, 0, 0, 3⟩ (.ok 10 20 30)).map Server.status
      = some "online" ∧
    (updateSingleServerRev ⟨"s1", "starting", "c1", 0, 0, 0, 3⟩ (.ok 10 20 30)).map Server.status
      = some "starting" ∧
    (updateSingleServerRev ⟨"s1", "offline", "c1", 0, 0, 0, 3⟩ (.ok 10 20 30)).map Server.status
      = some "online" := by decide

/-- C4: on a transient stats error the revised updater returns without
writing and appends no ResourceSample row, while the revision at
internal/monitoring/stat_updater.go still calls UpdateServerStats with the
unchanged row, appending a stale ResourceSample history row. -/
theorem statupdater_transient_write :
    updateSingleServerRev ⟨"s1", "online", "c1", 42, 37, 5, 3⟩ .transientError = none ∧
    tickHistoryRev [] ⟨"s1", "online", "c1", 42, 37, 5, 3⟩ .transientError = [] ∧
    updateSingleServerOld ⟨"s1", "online", "c1", 42, 37, 5, 3⟩ .transientError
      = some ⟨"s1", "online", "c1", 42, 37, 5, 3⟩ ∧
    tickHistoryOld [] ⟨"s1", "online", "c1", 42, 37, 5, 3⟩ .transientError
      = [⟨"s1", 42, 37, 3⟩] := by decide

/-- C3: for every combination of step outcomes, CreateBackup on an online
instance sends save-off first, save-all second, sleeps 5 seconds before
creating the archive when save-all succeeded, and sends save-on as the very
last action on every exit path. -/
theorem backup_save_barrier :
    ∀ a b c d e f : Bool,
    ((createBackupEvents true a b c d e f).1.head? = some (BkEvent.cmd "save-off")) ∧
    ((createBackupEvents true a b c d e f).1[1]? = some (BkEvent.cmd "save-all")) ∧
    ((createBackupEvents true a b c d e f).1.getLast? = some (BkEvent.cmd "save-on")) ∧
    (b = true → (createBackupEvents true a b c d e f).1[2]? = some (BkEvent.sleepSec 5) ∧
      (createBackupEvents true a b c d e f).1[3]? = some BkEvent.createArchive) := by
  decide

theorem backup_save_barrier_witness :
    ((createBackupEvents true false true true false true true).1.head?
      = some (BkEvent.cmd "save-off")) ∧
    ((createBackupEvents true false true true false true true).1.getLast?
      = some (BkEvent.cmd "save-on")) ∧
    ((createBackupEvents true false true true false true true).1[2]?
      = some (BkEvent.sleepSec 5)) :=
  ⟨(backup_save_barrier false true true false true true).1,
   (backup_save_barrier false true true false true true).2.2.1,
   ((backup_save_barrier false true true false true true).2.2.2 rfl).1⟩

/-- C5 (counterexample): a successful stop action records offline directly,
not stopping. -/
theorem stop_writes_offline_directly :
    performServerAction true true true "stop" = .ok "offline" ∧
    performServerAction true true true "stop" ≠ .ok "stopping" := by
  refine ⟨rfl, ?_⟩
  intro h
  exact absurd (Except.ok.inj h) (by decide)

/-- C5 (amended): every successful lifecycle action writes either starting
or offline as the immediate new status; in particular a successful stop
writes offline directly and the status stopping is never recorded. -/
theorem action_status_values :
    ∀ (stopOk startOk restartOk : Bool) (action st : String),
    performServerAction stopOk startOk restartOk action = .ok st →
    (st = "starting" ∨ st = "offline") ∧ (action = "stop" → st = "offline") ∧ st ≠ "stopping" := by
  intro s1 s2 s3 action st h
  unfold performServerAction at h
  split_ifs at h with h1 h2 h3 h4 h5 h6 h7 h8 <;>
    first
      | exact Except.noConfusion h
      | (injection h with h'
         subst h'
         refine ⟨by simp, ?_, by decide⟩
         intro hs
         first
           | rfl
           | (subst hs; simp_all))

theorem action_status_values_witness :
    (("offline" : String) = "starting" ∨ ("offline" : String) = "offline") ∧
    (("stop" : String) = "stop" → ("offline" : String) = "offline") ∧
    ("offline" : String) ≠ "stopping" :=
  action_status_values true true true "stop" "offline" rfl

/-- C6 (counterexample): a schedule whose next_run_at equals the tick time
is not dispatched on that tick, because the loop fires only when now is
strictly after next_run_at; one second earlier it fires. -/
theorem schedule_equal_time_skipped :
    checkAndRunSchedules (fun _ t => t + 60) 100 [⟨1, true, some 100⟩] = ([], []) ∧
    checkAndRunSchedules (fun _ t => t + 60) 100 [⟨1, true, some 99⟩]
      = ([1], [(1, 100, 160)]) :=
  ⟨rfl, rfl⟩

/-- C6 (amended): on a tick at time now, exactly the active schedules with a
parsable cron expression and next_run_at strictly earlier than now are
dispatched, each exactly once, and every persisted run-time pair is
last_run_at = now and next_run_at = cronNext now; when the cron library
returns a time strictly after now the two are never equal. -/
theorem schedule_tick_strict :
    ∀ (cronNext : Nat → Int → Int) (now : Int) (ss : List Schedule),
    (∀ i t, t < cronNext i t) →
    (checkAndRunSchedules cronNext now ss).1 = (ss.filter (dueSchedule now)).map Schedule.id ∧
    (∀ u ∈ (checkAndRunSchedules cronNext now ss).2,
      u.2.1 = now ∧ u.2.2 = cronNext u.1 now ∧ u.2.1 ≠ u.2.2) := by
  intro cronNext now ss h
  constructor
  · induction ss with
    | nil => rfl
    | cons s rest ih =>
      by_cases hd : dueSchedule now s
      · simp only [checkAndRunSchedules, hd, if_true, List.filter_cons, List.map_cons, ih]
      · simp only [checkAndRunSchedules, hd, if_false, List.filter_cons]
        simp only [hd, Bool.false_eq_true, if_false]
        exact ih
  · induction ss with
    | nil => intro u hu; simp [checkAndRunSchedules] at hu
    | cons s rest ih =>
      intro u hu
      by_cases hd : dueSchedule now s
      · simp only [checkAndRunSchedules, hd, if_true, List.mem_cons] at hu
        rcases hu with rfl | hu
        · exact ⟨rfl, rfl, ne_of_lt (h s.id now)⟩
        · exact ih u hu
      · simp only [checkAndRunSchedules, hd, if_false] at hu
        exact ih u hu

theorem schedule_tick_strict_witness :
    (checkAndRunSchedules (fun _ t => t + 60) 100 [⟨1, true, some 99⟩]).1
      = ([(⟨1, true, some 99⟩ : Schedule)].filter (dueSchedule 100)).map Schedule.id :=
  (schedule_tick_strict (fun _ t => t + 60) 100 [⟨1, true, some 99⟩]
    (by intro i t; show t < t + 60; omega)).1

/-- C10: a schedule whose next_run_at is unset is silently skipped by the
tick: if no schedule has a next-run time the tick dispatches nothing and
persists nothing, and every dispatched id comes from a schedule with a
parsable cron expression and a set next_run_at strictly earlier than now. -/
theorem schedule_nil_next_skipped :
    ∀ (cronNext : Nat → Int → Int) (now : Int) (ss : List Schedule),
    ((∀ s ∈ ss, s.nextRunAt = none) → checkAndRunSchedules cronNext now ss = ([], [])) ∧
    (∀ i ∈ (checkAndRunSchedules cronNext now ss).1,
      ∃ s, s ∈ ss ∧ s.id = i ∧ s.cronValid = true ∧ ∃ t, s.nextRunAt = some t ∧ t < now) := by
  intro cronNext now ss
  constructor
  · intro hall
    induction ss with
    | nil => rfl
    | cons s rest ih =>
      have hs : s.nextRunAt = none := hall s (List.mem_cons_self s rest)
      have hd : dueSchedule now s = false := by
        unfold dueSchedule
        rw [hs]
        simp
      simp only [checkAndRunSchedules, hd, if_false]
      exact ih (fun s' hs' => hall s' (List.mem_cons_of_mem s hs'))
  · induction ss with
    | nil => intro i hi; simp [checkAndRunSchedules] at hi
    | cons s rest ih =>
      intro i hi
      by_cases hd : dueSchedule now s
      · simp only [checkAndRunSchedules, hd, if_true, List.mem_cons] at hi
        rcases hi with rfl | hi
        · have hconj := hd
          unfold dueSchedule at hconj
          rw [Bool.and_eq_true] at hconj
          rcases hconj with ⟨hv, hm⟩
          match hnr : s.nextRunAt with
          | none => rw [hnr] at hm; cases hm
          | some t =>
            rw [hnr] at hm
            exact ⟨s, List.mem_cons_self s rest, rfl, hv, t, hnr, of_decide_eq_true hm⟩
        · rcases ih i hi with ⟨s', hmem, rest'⟩
          exact ⟨s', List.mem_cons_of_mem s hmem, rest'⟩
      · simp only [checkAndRunSchedules, hd, if_false] at hi
        rcases ih i hi with ⟨s', hmem, rest'⟩
        exact ⟨s', List.mem_cons_of_mem s hmem, rest'⟩

theorem schedule_nil_next_skipped_witness :
    (checkAndRunSchedules (fun _ t => t + 60) 100 [⟨1, true, none⟩] = ([], [])) ∧
    (∃ s, s ∈ [(⟨2, true, some 50⟩ : Schedule)] ∧ s.id = 2 ∧ s.cronValid = true ∧
      ∃ t, s.nextRunAt = some t ∧ t < 100) :=
  ⟨(schedule_nil_next_skipped (fun _ t => t + 60) 100 [⟨1, true, none⟩]).1 (by decide),
   (schedule_nil_next_skipped (fun _ t => t + 60) 100 [⟨2, true, some 50⟩]).2 2 (by decide)⟩


lemma hubInv_init : HubInv initHub := by
  refine ⟨List.nodup_nil, ?_, ?_, ?_, ?_⟩ <;> intro c <;> simp [initHub]

lemma hubInv_step {s s' : HubState} (hInv : HubInv s) (st : HubStep s s') : HubInv s' := by
  obtain ⟨hnd, hsubcl, hsingle, hcl0, hle⟩ := hInv
  cases st with
  | register c sid hc hcl hsubs =>
    refine ⟨List.nodup_cons.mpr ⟨hc, hnd⟩, ?_, ?_, ?_, hle⟩
    · intro t c' hm
      by_cases hsid : sid = ""
      · rw [if_pos hsid] at hm
        exact List.mem_cons_of_mem c (hsubcl t c' hm)
      · rw [if_neg hsid] at hm
        rcases List.mem_cons.mp hm with heq | hm'
        · rw [Prod.mk.injEq] at heq
          rw [heq.2]
          exact List.mem_cons_self c s.clients
        · exact List.mem_cons_of_mem c (hsubcl t c' hm')
    · intro t₁ t₂ c' h1 h2
      by_cases hsid : sid = ""
      · rw [if_pos hsid] at h1 h2
        exact hsingle t₁ t₂ c' h1 h2
      · rw [if_neg hsid] at h1 h2
        rcases List.mem_cons.mp h1 with he1 | h1' <;> rcases List.mem_cons.mp h2 with he2 | h2'
        · rw [Prod.mk.injEq] at he1 he2
          rw [he1.1, he2.1]
        · rw [Prod.mk.injEq] at he1
          exact absurd (he1.2 ▸ h2') (hsubs t₂)
        · rw [Prod.mk.injEq] at he2
          exact absurd (he2.2 ▸ h1') (hsubs t₁)
        · exact hsingle t₁ t₂ c' h1' h2'
    · intro c' hc'
      rcases List.mem_cons.mp hc' with rfl | hm
      · exact hcl
      · exact hcl0 c' hm
  | unregisterHit c hc =>
    refine ⟨hnd.erase c, ?_, ?_, ?_, ?_⟩
    · intro t c' hm
      rw [List.mem_filter] at hm
      have hne : c' ≠ c := by
        have := hm.2
        simp only [Bool.not_eq_true', decide_eq_false_iff_not] at this
        exact this
      exact (hnd.mem_erase_iff.mpr ⟨hne, hsubcl t c' hm.1⟩)
    · intro t₁ t₂ c' h1 h2
      rw [List.mem_filter] at h1 h2
      exact hsingle t₁ t₂ c' h1.1 h2.1
    · intro c' hc'
      have hne : c' ≠ c := (hnd.mem_erase_iff.mp hc').1
      have hmem : c' ∈ s.clients := (hnd.mem_erase_iff.mp hc').2
      dsimp only [bumpClosed]
      rw [if_neg hne]
      exact hcl0 c' hmem
    · intro c'
      dsimp only [bumpClosed]
      by_cases hne : c' = c
      · rw [if_pos hne, hne, hcl0 c hc]
      · rw [if_neg hne]
        exact hle c'
  | unregisterMiss c hc =>
    exact ⟨hnd, hsubcl, hsingle, hcl0, hle⟩
  | broadcast F =>
    refine ⟨hnd.filter _, ?_, ?_, ?_, ?_⟩
    · intro t c' hm
      rw [List.mem_filter] at hm
      have hmc : c' ∈ s.clients := hsubcl t c' hm.1
      have hF : F c' = false := by
        have := hm.2
        simp only [Bool.not_eq_true', Bool.and_eq_false_iff, decide_eq_false_iff_not] at this
        rcases this with h | h
        · exact absurd hmc h
        · exact h
      rw [List.mem_filter]
      exact ⟨hmc, by rw [hF]; rfl⟩
    · intro t₁ t₂ c' h1 h2
      rw [List.mem_filter] at h1 h2
      exact hsingle t₁ t₂ c' h1.1 h2.1
    · intro c' hc'
      rw [List.mem_filter] at hc'
      have hF : F c' = false := by
        have := hc'.2
        simp only [Bool.not_eq_true'] at this
        exact this
      have hns : ¬(c' ∈ s.clients ∧ F c' = true) := by
        rintro ⟨_, hFt⟩
        rw [hF] at hFt
        cases hFt
      dsimp only
      rw [if_neg hns]
      exact hcl0 c' hc'.1
    · intro c'
      dsimp only
      by_cases hcond : c' ∈ s.clients ∧ F c' = true
      · rw [if_pos hcond, hcl0 c' hcond.1]
      · rw [if_neg hcond]
        exact hle c'
  | broadcastTo topic F =>
    refine ⟨hnd.filter _, ?_, ?_, ?_, ?_⟩
    · intro t c' hm
      rw [List.mem_filter] at hm
      have hmc : c' ∈ s.clients := hsubcl t c' hm.1
      rw [List.mem_filter]
      refine ⟨hmc, ?_⟩
      simp only [Bool.not_eq_true', Bool.and_eq_false_iff, decide_eq_false_iff_not]
      by_cases hF : F c' = true
      · left
        intro hsub
        have ht : t = topic := hsingle t topic c' hm.1 hsub
        have := hm.2
        simp only [Bool.not_eq_true', Bool.and_eq_false_iff, decide_eq_false_iff_not] at this
        rcases this with h | h
        · exact h ht
        · rw [h] at hF
          cases hF
      · right
        simp only [Bool.not_eq_true] at hF
        exact hF
    · intro t₁ t₂ c' h1 h2
      rw [List.mem_filter] at h1 h2
      exact hsingle t₁ t₂ c' h1.1 h2.1
    · intro c' hc'
      rw [List.mem_filter] at hc'
      have hcond : ¬((topic, c') ∈ s.subs ∧ F c' = true) := by
        have := hc'.2
        simp only [Bool.not_eq_true', Bool.and_eq_false_iff, decide_eq_false_iff_not] at this
        rcases this with h | h
        · rintro ⟨hs, _⟩; exact h hs
        · rintro ⟨_, hFt⟩; rw [h] at hFt; cases hFt
      dsimp only
      rw [if_neg hcond]
      exact hcl0 c' hc'.1
    · intro c'
      dsimp only
      by_cases hcond : (topic, c') ∈ s.subs ∧ F c' = true
      · rw [if_pos hcond, hcl0 c' (hsubcl topic c' hcond.1)]
      · rw [if_neg hcond]
        exact hle c'

lemma hubInv_reachable {s : HubState} (h : HubReachable s) : HubInv s := by
  induction h with
  | refl => exact hubInv_init
  | tail _ st ih => exact hubInv_step ih st

/-- C9: in every reachable hub state a session's outbox has been closed at
most once, and a session whose outbox has been closed is no longer in the
client set nor subscribed to any topic, so a later Unregister for it is the
no-op branch. -/
theorem hub_outbox_closed_once :
    ∀ s : HubState, HubReachable s →
    (∀ c, s.closed c ≤ 1) ∧
    (∀ c, 1 ≤ s.closed c → c ∉ s.clients ∧ ∀ t, (t, c) ∉ s.subs) := by
  intro s hr
  obtain ⟨hnd, hsubcl, hsingle, hcl0, hle⟩ := hubInv_reachable hr
  refine ⟨hle, ?_⟩
  intro c hcnt
  constructor
  · intro hmem
    rw [hcl0 c hmem] at hcnt
    exact absurd hcnt (by omega)
  · intro t hsub
    rw [hcl0 c (hsubcl t c hsub)] at hcnt
    exact absurd hcnt (by omega)

theorem hub_outbox_closed_once_witness :
    initHub.closed 0 ≤ 1 :=
  (hub_outbox_closed_once initHub Relation.ReflTransGen.refl).1 0

end EnderDeploy
